import Mathlib

/-!
Verification development for the kopia backend: snapshot resolution,
the lazy directory-tree cache, the retry policy, and the read-only
mutation entry points.  Definitions are shallow embeddings of the Go
source; stateful code is modeled by explicit state passing, remote
calls by an explicit world parameter, and elapsed time by natural
number timestamps (seconds).
-/

namespace Kopia

/-! ### Path helpers

Models of the Go standard library functions used by the source:
`path.Clean`, `path.Split`, `path.Join`, `strings.Trim(s, "/")`.
These are external collaborators of the repository; they are modeled
from their documented lexical semantics. -/

/-- Split a character list into slash-separated segments
(model of `strings.Split(p, "/")` restricted to the separator used). -/
def splitSlashCh : List Char → List (List Char)
  | [] => [[]]
  | c :: cs =>
    let r := splitSlashCh cs
    if c = '/' then [] :: r
    else
      match r with
      | [] => [[c]]
      | g :: gs => (c :: g) :: gs

/-- Slash-separated segments of a string. -/
def splitSlash (p : String) : List String :=
  (splitSlashCh p.data).map (fun cs => ⟨cs⟩)

/-- Join segments with a slash separator. -/
def joinSlash : List String → String
  | [] => ""
  | [s] => s
  | s :: rest => s ++ "/" ++ joinSlash rest

/-- True when the path begins with a slash. -/
def isRooted (p : String) : Bool :=
  match p.data with
  | '/' :: _ => true
  | _ => false

/-- Segment processing of Go `path.Clean`: drop empty and dot segments,
resolve dot-dot against the accumulated stack. `acc` holds the already
accepted segments in reverse order. -/
def cleanSegsAux (rooted : Bool) : List String → List String → List String
  | acc, [] => acc.reverse
  | acc, s :: rest =>
    if s = "" ∨ s = "." then cleanSegsAux rooted acc rest
    else if s = ".." then
      match acc with
      | [] => cleanSegsAux rooted (if rooted then [] else [".."]) rest
      | t :: ts =>
        if t = ".." then cleanSegsAux rooted (".." :: t :: ts) rest
        else cleanSegsAux rooted ts rest
    else cleanSegsAux rooted (s :: acc) rest

/-- Model of Go `path.Clean`. -/
def goClean (p : String) : String :=
  if p = "" then "."
  else
    let rooted := isRooted p
    let segs := cleanSegsAux rooted [] (splitSlash p)
    let s := joinSlash segs
    if rooted then "/" ++ s
    else if s = "" then "." else s

/-- Model of `strings.Trim(p, "/")`: drop leading and trailing slashes. -/
def trimSlash (p : String) : String :=
  ⟨((p.data.dropWhile (· = '/')).reverse.dropWhile (· = '/')).reverse⟩

/-- Embedding of the source function `cleanPath`
(`strings.Trim(path.Clean(p), "/")` guarded on the empty string). -/
def cleanPath (p : String) : String :=
  if p = "" then "" else trimSlash (goClean p)

/-- Model of Go `path.Split`: split after the final slash. -/
def goSplitPath (p : String) : String × String :=
  let r := p.data.reverse
  (⟨(r.dropWhile (· ≠ '/')).reverse⟩, ⟨(r.takeWhile (· ≠ '/')).reverse⟩)

/-- Model of Go `path.Join` on two elements: empty elements are skipped,
the result is cleaned. -/
def goJoin (a b : String) : String :=
  if a = "" ∧ b = "" then ""
  else if a = "" then goClean b
  else if b = "" then goClean a
  else goClean (a ++ "/" ++ b)

/-! ### Data types from `types.go` -/

/-- Embedding of the `Summary` struct. -/
structure Summary where
  size : Int
  files : Nat
  symlinks : Nat
  dirs : Nat
  maxTime : Nat
  numFailed : Nat
deriving Repr, DecidableEq

/-- Embedding of the `Snapshot` struct. -/
structure Snapshot where
  id : String
  description : String
  startTime : Nat
  endTime : Nat
  summary : Summary
  rootID : String
  retention : List String
  pins : List String
deriving Repr, DecidableEq

/-- Embedding of the directory-listing `Entry` struct. -/
structure Entry where
  name : String
  type : String
  mode : String
  size : Int
  mtime : Nat
  obj : String
  summ : Summary
deriving Repr, DecidableEq

/-- Shorthand for building a snapshot whose logic-irrelevant fields are
zeroed, used in concrete examples. -/
def mkSnap (id rootID : String) (retention pins : List String) : Snapshot :=
  ⟨id, "", 0, 0, ⟨0, 0, 0, 0, 0, 0⟩, rootID, retention, pins⟩

/-- Error kinds surfaced by the embedded operations, mirroring the
rclone sentinel errors used by the source. -/
inductive Err
  | permissionDenied
  | cantSetModTime
  | dirNotFound
  | objectNotFound
  | isDir
  | isFile
  | notFound
  | remoteErr
  | fuelOut
deriving Repr, DecidableEq

/-! ### Snapshot scan (`Fs.getRootId` selection loop, lines 142-155) -/

/-- Embedding of the selection loop of `getRootId` on the snapshot list
already reversed (the Go code iterates the index from the last element
down to the first with early `break`). -/
def scanRev (spec : String) : List Snapshot → String
  | [] => ""
  | s :: rest =>
    if spec = s.rootID then s.rootID
    else if s.retention.contains "incomplete" = false ∧
        ((spec = "pin" ∧ 0 < s.pins.length) ∨ spec = "" ∨ spec = "latest") then
      s.rootID
    else scanRev spec rest

/-- Selection over the snapshot list in API order: scan from the last
element toward the first. -/
def scanSnapshots (spec : String) (snaps : List Snapshot) : String :=
  scanRev spec snaps.reverse

/-! ### Resolver state machine (`Fs.getRootId`, lines 122-170)

The `sync.Once` guard together with the delayed-reset goroutine is
modeled as explicit state: `onceUsed` is whether the one-shot gate has
been consumed, and `resetAt` is the pending time (if any) at which the
background goroutine rearms the gate (`time.Sleep(3 * time.Second)`
followed by replacing the `Once`).  A call at time `now` first applies
any reset whose scheduled time has arrived. -/

structure ResolverState where
  rootId : String
  onceUsed : Bool
  resetAt : Option Nat
deriving Repr, DecidableEq

/-- Apply the pending gate reset if its scheduled time has arrived. -/
def applyReset (s : ResolverState) (now : Nat) : ResolverState :=
  match s.resetAt with
  | some t => if t ≤ now then { s with onceUsed := false, resetAt := none } else s
  | none => s

/-- Embedding of `Fs.getRootId`: one call at time `now`, where `remote`
is the final outcome of the paced snapshot-list call (`.error` when the
call fails, `.ok` with the parsed snapshot list otherwise).  Returns the
result, the successor state, and the number of remote snapshot-list
attempts issued by this call. -/
def resolveRoot (spec : String) (s0 : ResolverState) (now : Nat)
    (remote : Except Unit (List Snapshot)) :
    Except Err String × ResolverState × Nat :=
  let s := applyReset s0 now
  if s.onceUsed then
    (if s.rootId = "" then .error .notFound else .ok s.rootId, s, 0)
  else
    match remote with
    | .error _ => (.error .notFound, { s with onceUsed := true }, 1)
    | .ok snaps =>
      let r := scanSnapshots spec snaps
      if r = "" then
        (.error .notFound, { s with onceUsed := true, resetAt := some (now + 3) }, 1)
      else
        (.ok r, { s with onceUsed := true, rootId := r }, 1)

/-- States of the resolver reachable from the fresh filesystem handle
by any sequence of calls. -/
inductive Reachable (spec : String) : ResolverState → Prop
  | init : Reachable spec ⟨"", false, none⟩
  | step (s : ResolverState) (now : Nat) (remote : Except Unit (List Snapshot)) :
      Reachable spec s → Reachable spec (resolveRoot spec s now remote).2.1

/-- Structural invariant of the resolver state: an open gate implies a
fresh state, and a resolved root implies a consumed gate with no
pending reset. -/
def ResolverInv (s : ResolverState) : Prop :=
  (s.onceUsed = false → s.rootId = "" ∧ s.resetAt = none) ∧
  (s.rootId ≠ "" → s.onceUsed = true ∧ s.resetAt = none)

/-! ### Retry policy (`Fs.shouldRetry`, lines 172-177) -/

/-- Embedding of `Fs.shouldRetry`.  `contextErr` is the context error
when the context is cancelled or past its deadline (model of
`fserrors.ContextError`, which then overwrites the error in place);
`transientOf` is the transient classification `fserrors.ShouldRetry`;
`resp` is the response status code when a response is present. -/
def shouldRetry (contextErr : Option Err) (transientOf : Option Err → Bool)
    (resp : Option Nat) (err : Option Err) : Bool × Option Err :=
  match contextErr with
  | some ce => (false, some ce)
  | none =>
    (transientOf err || (match resp with | none => true | some code => decide (500 ≤ code)),
     err)

/-! ### Directory entries and the lazy tree cache

Embedding of the `ObjectInfo` / `Object` / `Directory` types of the
source and of `Fs.listObject`, `Fs.list`, `Fs.newObject`, `Fs.List`,
`Fs.NewObject`.  The mutable `entries` pointer of each `Directory` node
(nil = not yet fetched) is modeled as an association list keyed by the
node's normalized path — each tree node is reached by exactly one
normalized path, so the keying is faithful; `Fs.rootEntries` keeps its
own slot as in the source.  The remote object store is a function from
object identifier to outcome, and each embedded operation additionally
returns the number of remote object fetches it issued. -/

/-- Shared fields of `Object` and `Directory` (`ObjectInfo`). -/
structure ObjectInfo where
  id : String
  name : String
  remote : String
  size : Int
  modTime : Nat
deriving Repr, DecidableEq

/-- The `DirEntry` interface with its two implementations: plain
objects (files) and directories. -/
inductive DirEntry
  | object (info : ObjectInfo)
  | directory (info : ObjectInfo)
deriving Repr, DecidableEq

/-- The `Name()` method of both implementations. -/
def DirEntry.name : DirEntry → String
  | .object i => i.name
  | .directory i => i.name

/-- Outcome of `GET /api/v1/objects/id`: a failing call, a non-JSON
body (raw file contents), or a parsed directory listing. -/
inductive ObjResult
  | err
  | raw
  | dir (entries : List Entry)

/-- The remote collaborator plus the call time used by the resolver. -/
structure World where
  snapshots : Except Unit (List Snapshot)
  now : Nat
  objects : String → ObjResult

/-- State of the filesystem handle relevant to listing: the resolver
state, the root listing cache, and the per-directory listing caches
keyed by normalized path. -/
structure FsState where
  resolver : ResolverState
  rootEntries : Option (List DirEntry)
  dirCache : List (String × List DirEntry)
deriving Repr, DecidableEq

def lookupAssoc (m : List (String × List DirEntry)) (k : String) :
    Option (List DirEntry) :=
  (m.find? (fun kv => kv.1 == k)).map Prod.snd

def insertAssoc (m : List (String × List DirEntry)) (k : String)
    (v : List DirEntry) : List (String × List DirEntry) :=
  (k, v) :: m

/-- Conversion of one fetched listing item into a tree node, as in the
body of `Fs.listObject` (lines 258-285): directories take their size
from the nested summary, files from the direct size field. -/
def mkEntry (remote : String) (item : Entry) : DirEntry :=
  if item.type = "d" then
    .directory ⟨item.obj, item.name, goJoin remote item.name, item.summ.size, item.mtime⟩
  else
    .object ⟨item.obj, item.name, goJoin remote item.name, item.size, item.mtime⟩

def mkEntries (remote : String) (items : List Entry) : List DirEntry :=
  items.map (mkEntry remote)

/-- Embedding of `Fs.listObject` (lines 242-287): one remote object
fetch; a failing call propagates its error, a non-JSON response is
reported as is-a-file, a JSON listing is converted to tree nodes. -/
def listObject (w : World) (remote : String) (objId : String) :
    Except Err (List DirEntry) :=
  match w.objects objId with
  | .err => .error .remoteErr
  | .raw => .error .isFile
  | .dir items => .ok (mkEntries remote items)

mutual

/-- Embedding of `Fs.list` (lines 289-328).  `fuel` bounds the depth of
the mutual recursion with `newObjectF` (the path walk shortens the path
at every level, so any fuel at least the segment depth is enough); the
result is the listing (or error), the successor state, and the number
of remote object fetches issued. -/
def listF (w : World) (spec : String) (fuel : Nat) (st : FsState) (remote0 : String) :
    Except Err (List DirEntry) × FsState × Nat :=
  match fuel with
  | 0 => (.error .fuelOut, st, 0)
  | fuel + 1 =>
    let remote := cleanPath remote0
    if remote = "" then
      match st.rootEntries with
      | some es => (.ok es, st, 0)
      | none =>
        match resolveRoot spec st.resolver w.now w.snapshots with
        | (.error e, rs, _) => (.error e, { st with resolver := rs }, 0)
        | (.ok rootId, rs, _) =>
          match listObject w remote rootId with
          | .error e => (.error e, { st with resolver := rs }, 1)
          | .ok es => (.ok es, { st with resolver := rs, rootEntries := some es }, 1)
    else
      match newObjectF w spec fuel st remote with
      | (.error e, st1, n) =>
        if e = .objectNotFound then (.error .dirNotFound, st1, n)
        else (.error e, st1, n)
      | (.ok (.object _), st1, n) => (.error .isFile, st1, n)
      | (.ok (.directory info), st1, n) =>
        match lookupAssoc st1.dirCache remote with
        | some es => (.ok es, st1, n)
        | none =>
          match listObject w remote info.id with
          | .error e => (.error e, st1, n + 1)
          | .ok es =>
            (.ok es, { st1 with dirCache := insertAssoc st1.dirCache remote es }, n + 1)

/-- Embedding of `Fs.newObject` (lines 332-349): split the normalized
path, list the parent, then scan the parent's entries for the final
segment. -/
def newObjectF (w : World) (spec : String) (fuel : Nat) (st : FsState) (remote0 : String) :
    Except Err DirEntry × FsState × Nat :=
  match fuel with
  | 0 => (.error .fuelOut, st, 0)
  | fuel + 1 =>
    let remote := cleanPath remote0
    let ds := goSplitPath remote
    match listF w spec fuel st ds.1 with
    | (.error e, st1, n) => (.error e, st1, n)
    | (.ok entries, st1, n) =>
      if ds.2 = "" then (.error .isDir, st1, n)
      else
        match entries.find? (fun it => it.name == ds.2) with
        | some it => (.ok it, st1, n)
        | none => (.error .objectNotFound, st1, n)

end

/-- Embedding of the public `Fs.List` (lines 225-227): the requested
directory is joined onto the configured root. -/
def FsList (w : World) (spec root : String) (fuel : Nat) (st : FsState) (dir : String) :
    Except Err (List DirEntry) × FsState × Nat :=
  listF w spec fuel st (goJoin root dir)

/-- Embedding of the public `Fs.NewObject` (lines 231-240): a resolved
directory is reported as is-a-directory, a file is returned. -/
def FsNewObject (w : World) (spec root : String) (fuel : Nat) (st : FsState) (remote : String) :
    Except Err ObjectInfo × FsState × Nat :=
  match newObjectF w spec fuel st (goJoin root remote) with
  | (.error e, st1, n) => (.error e, st1, n)
  | (.ok (.directory _), st1, n) => (.error .isDir, st1, n)
  | (.ok (.object info), st1, n) => (.ok info, st1, n)

/-! ### Mutation entry points

Embeddings of `Fs.Put`, `Fs.Mkdir`, `Fs.Rmdir` (part_000 lines 351-367)
and `ObjectInfo.SetModTime`, `ObjectInfo.Update`, `ObjectInfo.Remove`
(part_001 lines 97-99 and 122-129).  Each takes the handle state and
returns its fixed error, the unchanged state, and a remote-call count. -/

def FsPut (st : FsState) : Except Err ObjectInfo × FsState × Nat :=
  (.error .permissionDenied, st, 0)

def FsMkdir (st : FsState) (_d : String) : Except Err Unit × FsState × Nat :=
  (.error .permissionDenied, st, 0)

def FsRmdir (st : FsState) (_d : String) : Except Err Unit × FsState × Nat :=
  (.error .permissionDenied, st, 0)

def ObjectUpdate (st : FsState) : Except Err Unit × FsState × Nat :=
  (.error .permissionDenied, st, 0)

def ObjectRemove (st : FsState) : Except Err Unit × FsState × Nat :=
  (.error .permissionDenied, st, 0)

def ObjectSetModTime (st : FsState) (_u : Nat) : Except Err Unit × FsState × Nat :=
  (.error .cantSetModTime, st, 0)

/-- Concrete complete snapshot used by witnesses. -/
def snapEx : Snapshot := mkSnap "sx" "rx" [] []

/-- A request path whose whole ancestor chain of listings is already
cached in `st`: level 0 is the filesystem root (root-entries slot), and
each further level is a directory entry found in its parent's cached
listing whose own listing is cached under its normalized path.  The
string index is the raw request string; the side conditions constrain
its normalized form. -/
inductive CachedChain (st : FsState) : Nat → String → List DirEntry → Prop
  | root (q : String) (es : List DirEntry) :
      cleanPath q = "" → st.rootEntries = some es → CachedChain st 0 q es
  | sub (k : Nat) (q p : String) (pes es : List DirEntry) (info : ObjectInfo) :
      cleanPath q = p → p ≠ "" → cleanPath p = p →
      CachedChain st k (goSplitPath p).1 pes →
      (goSplitPath p).2 ≠ "" →
      pes.find? (fun it => it.name == (goSplitPath p).2) = some (.directory info) →
      lookupAssoc st.dirCache p = some es →
      CachedChain st (k + 1) q es

/-- All-zero summary used by concrete examples. -/
def zsum : Summary := ⟨0, 0, 0, 0, 0, 0⟩

/-- Concrete listing item: a directory named "a". -/
def entryA : Entry := ⟨"a", "d", "", 0, 0, "ida", zsum⟩

/-- Tree node produced by fetching `entryA` under the root. -/
def nodeA : DirEntry := .directory ⟨"ida", "a", "a", 0, 0⟩

/-- Concrete world: the root object "rt" lists the single directory "a". -/
def worldEx : World := ⟨.ok [], 0, fun i => if i = "rt" then .dir [entryA] else .raw⟩

/-- Concrete world with directories "a" and "a/b" and the file "a/b/c". -/
def worldABC : World :=
  ⟨.ok [], 0, fun i =>
    if i = "rt" then .dir [⟨"a", "d", "", 0, 0, "ia", zsum⟩]
    else if i = "ia" then .dir [⟨"b", "d", "", 0, 0, "ib", zsum⟩]
    else if i = "ib" then .dir [⟨"c", "f", "", 42, 9, "ic", zsum⟩]
    else .raw⟩

/-- Handle state with resolved root "rt" and both listing caches filled:
the root lists `nodeA` and the listing of "a" is cached (empty). -/
def stCached : FsState := ⟨⟨"rt", true, none⟩, some [nodeA], [("a", [])]⟩

/-- Handle state with resolved root "rt" and nothing cached. -/
def stFresh : FsState := ⟨⟨"rt", true, none⟩, none, []⟩

/-! ### Resolver invariant lemmas -/

theorem resolverInv_init : ResolverInv ⟨"", false, none⟩ := by
  constructor <;> simp

theorem resolverInv_step (spec : String) (s : ResolverState) (now : Nat)
    (remote : Except Unit (List Snapshot)) (h : ResolverInv s) :
    ResolverInv (resolveRoot spec s now remote).2.1 := by
  obtain ⟨h1, h2⟩ := h
  obtain ⟨rid, once, reset⟩ := s
  simp only [resolveRoot, applyReset] at *
  cases reset with
  | none =>
    cases once with
    | true => exact ⟨by simp, fun _ => ⟨rfl, rfl⟩⟩
    | false =>
      obtain ⟨hrid, -⟩ := h1 rfl
      subst hrid
      simp only [Bool.false_eq_true, if_false]
      cases remote with
      | error e => exact ⟨by simp, by simp⟩
      | ok snaps =>
        by_cases hscan : scanSnapshots spec snaps = "" <;>
          simp only [hscan, if_true, if_false, reduceIte] <;>
          exact ⟨by simp_all, by simp_all⟩
  | some t =>
    have hrid : rid = "" := by
      by_contra hne
      exact absurd (h2 hne).2 (by simp)
    subst hrid
    by_cases ht : t ≤ now
    · simp only [ht, if_true, reduceIte]
      cases remote with
      | error e => exact ⟨by simp, by simp⟩
      | ok snaps =>
        by_cases hscan : scanSnapshots spec snaps = "" <;>
          simp only [hscan, if_true, if_false, reduceIte] <;>
          exact ⟨by simp_all, by simp_all⟩
    · simp only [ht, if_false, reduceIte]
      cases once with
      | true => exact ⟨by simp, by simp⟩
      | false => exact absurd (h1 rfl).2 (by simp)

theorem reachable_inv (spec : String) (s : ResolverState)
    (h : Reachable spec s) : ResolverInv s := by
  induction h with
  | init => exact resolverInv_init
  | step s now remote _ ih => exact resolverInv_step spec s now remote ih

/-! ### Snapshot-scan lemmas -/

theorem scanRev_explicit (spec : String) (h1 : spec ≠ "") (h2 : spec ≠ "latest")
    (h3 : spec ≠ "pin") (m : List Snapshot) :
    scanRev spec m = ((m.find? (fun s => s.rootID == spec)).map Snapshot.rootID).getD "" := by
  induction m with
  | nil => rfl
  | cons s rest ih =>
    by_cases h : spec = s.rootID
    · have hb : ((fun t : Snapshot => t.rootID == spec) s) = true := by
        show (s.rootID == spec) = true
        exact beq_iff_eq.mpr h.symm
      simp only [scanRev]
      rw [if_pos h, List.find?_cons_of_pos (p := fun t : Snapshot => t.rootID == spec) _ hb]
      rfl
    · have hb : ¬ ((fun t : Snapshot => t.rootID == spec) s) = true := by
        show ¬ (s.rootID == spec) = true
        simp only [beq_iff_eq]
        exact fun hh => h hh.symm
      have hcond : ¬ (s.retention.contains "incomplete" = false ∧
          ((spec = "pin" ∧ 0 < s.pins.length) ∨ spec = "" ∨ spec = "latest")) := by
        rintro ⟨-, (⟨hp, -⟩ | he | hl)⟩
        · exact h3 hp
        · exact h1 he
        · exact h2 hl
      simp only [scanRev]
      rw [if_neg h, if_neg hcond,
        List.find?_cons_of_neg (p := fun t : Snapshot => t.rootID == spec) _ hb, ih]

theorem scanRev_filter (spec : String) (hs : spec = "" ∨ spec = "latest")
    (m : List Snapshot) (hnc : ∀ s ∈ m, s.rootID ≠ spec) :
    scanRev spec m
      = ((m.find? (fun s => !(s.retention.contains "incomplete"))).map Snapshot.rootID).getD "" := by
  induction m with
  | nil => rfl
  | cons s rest ih =>
    have hne : ¬ spec = s.rootID := fun hh => hnc s (by simp) hh.symm
    by_cases hc : s.retention.contains "incomplete" = false
    · have hcond : s.retention.contains "incomplete" = false ∧
          ((spec = "pin" ∧ 0 < s.pins.length) ∨ spec = "" ∨ spec = "latest") :=
        ⟨hc, Or.inr hs⟩
      have hp : ((fun t : Snapshot => !(t.retention.contains "incomplete")) s) = true := by
        show (!(s.retention.contains "incomplete")) = true
        rw [hc]
        rfl
      simp only [scanRev]
      rw [if_neg hne, if_pos hcond,
        List.find?_cons_of_pos (p := fun t : Snapshot => !(t.retention.contains "incomplete")) _ hp]
      rfl
    · have hct : s.retention.contains "incomplete" = true := by
        cases hv : s.retention.contains "incomplete" with
        | false => exact absurd hv hc
        | true => rfl
      have hcond : ¬ (s.retention.contains "incomplete" = false ∧
          ((spec = "pin" ∧ 0 < s.pins.length) ∨ spec = "" ∨ spec = "latest")) := by
        rintro ⟨hcf, -⟩; exact hc hcf
      have hrest : ∀ t ∈ rest, t.rootID ≠ spec := fun t ht => hnc t (by simp [ht])
      have hp : ¬ ((fun t : Snapshot => !(t.retention.contains "incomplete")) s) = true := by
        show ¬ (!(s.retention.contains "incomplete")) = true
        rw [hct]
        simp
      simp only [scanRev]
      rw [if_neg hne, if_neg hcond,
        List.find?_cons_of_neg (p := fun t : Snapshot => !(t.retention.contains "incomplete")) _ hp,
        ih hrest]

theorem scanRev_pin (spec : String) (hs : spec = "pin")
    (m : List Snapshot) (hnc : ∀ s ∈ m, s.rootID ≠ spec) :
    scanRev spec m
      = ((m.find? (fun s => !(s.retention.contains "incomplete")
          && decide (0 < s.pins.length))).map Snapshot.rootID).getD "" := by
  have hz : spec ≠ "" := by rw [hs]; decide
  have hl : spec ≠ "latest" := by rw [hs]; decide
  induction m with
  | nil => rfl
  | cons s rest ih =>
    have hne : ¬ spec = s.rootID := fun hh => hnc s (by simp) hh.symm
    by_cases hc : s.retention.contains "incomplete" = false ∧ 0 < s.pins.length
    · have hcond : s.retention.contains "incomplete" = false ∧
          ((spec = "pin" ∧ 0 < s.pins.length) ∨ spec = "" ∨ spec = "latest") :=
        ⟨hc.1, Or.inl ⟨hs, hc.2⟩⟩
      have hp : ((fun t : Snapshot => !(t.retention.contains "incomplete")
          && decide (0 < t.pins.length)) s) = true := by
        show (!(s.retention.contains "incomplete") && decide (0 < s.pins.length)) = true
        rw [hc.1]
        simp [hc.2]
      simp only [scanRev]
      rw [if_neg hne, if_pos hcond,
        List.find?_cons_of_pos (p := fun t : Snapshot => !(t.retention.contains "incomplete")
          && decide (0 < t.pins.length)) _ hp]
      rfl
    · have hcond : ¬ (s.retention.contains "incomplete" = false ∧
          ((spec = "pin" ∧ 0 < s.pins.length) ∨ spec = "" ∨ spec = "latest")) := by
        rintro ⟨hcf, (⟨-, hp⟩ | he | hl2)⟩
        · exact hc ⟨hcf, hp⟩
        · exact hz he
        · exact hl hl2
      have hrest : ∀ t ∈ rest, t.rootID ≠ spec := fun t ht => hnc t (by simp [ht])
      have hp : ¬ ((fun t : Snapshot => !(t.retention.contains "incomplete")
          && decide (0 < t.pins.length)) s) = true := by
        show ¬ (!(s.retention.contains "incomplete") && decide (0 < s.pins.length)) = true
        cases hv : s.retention.contains "incomplete" with
        | true => simp
        | false =>
          have hnp : ¬ 0 < s.pins.length := fun hpp => hc ⟨hv, hpp⟩
          simp [hnp]
      simp only [scanRev]
      rw [if_neg hne, if_neg hcond,
        List.find?_cons_of_neg (p := fun t : Snapshot => !(t.retention.contains "incomplete")
          && decide (0 < t.pins.length)) _ hp,
        ih hrest]

/-! ### Claim theorems: snapshot resolution -/

/-- C1 (counterexample): the exact-match branch compares the specifier to
the snapshot's ROOT object identifier, not to its snapshot ID, and only
per element during the backward scan.  First conjunct: a snapshot whose
ID equals the specifier but whose root ID differs is not selected at all.
Second conjunct: with specifier "latest", a snapshot whose root ID is
literally "latest" sitting earlier in the list loses to a later-scanned
snapshot accepted by the latest/pin filter, so exact match does not take
priority over the filter across the whole list. -/
theorem snapshot_id_match_not_selected :
    scanSnapshots "s1" [mkSnap "s1" "r1" [] []] = ""
    ∧ scanSnapshots "latest" [mkSnap "a" "latest" [] [], mkSnap "b" "r2" [] []] = "r2" :=
  ⟨rfl, rfl⟩

/-- C1 (amended): for a specifier other than "", "latest" and "pin", the
resolver selects the first snapshot encountered scanning from the last
element toward the first whose ROOT object identifier equals the
specifier exactly, regardless of its retention tags or pins, and selects
nothing when no root identifier matches. -/
theorem snapshot_explicit_selects_by_rootID (spec : String) (snaps : List Snapshot)
    (h1 : spec ≠ "") (h2 : spec ≠ "latest") (h3 : spec ≠ "pin") :
    scanSnapshots spec snaps
      = ((snaps.reverse.find? (fun s => s.rootID == spec)).map Snapshot.rootID).getD "" :=
  scanRev_explicit spec h1 h2 h3 snaps.reverse

/-- C1 witness: a concrete explicit specifier selects the matching root
identifier even though the snapshot is tagged "incomplete". -/
theorem snapshot_explicit_selects_by_rootID_witness :
    scanSnapshots "r1" [mkSnap "s1" "r1" ["incomplete"] []] = "r1" := by
  have h := snapshot_explicit_selects_by_rootID "r1" [mkSnap "s1" "r1" ["incomplete"] []]
    (by decide) (by decide) (by decide)
  simpa using h

/-- C2: on a snapshot list whose identifiers do not collide with the
specifier, resolving with "" or "latest" selects the snapshot closest to
the end of the list that is not tagged "incomplete", and resolving with
"pin" selects the snapshot closest to the end that is not tagged
"incomplete" and has at least one pin. -/
theorem snapshot_latest_pin_selection (spec : String) (snaps : List Snapshot)
    (hnc : ∀ s ∈ snaps, s.rootID ≠ spec ∧ s.id ≠ spec) :
    ((spec = "" ∨ spec = "latest") →
      (∃ s ∈ snaps, s.retention.contains "incomplete" = false) →
      ∃ s, snaps.reverse.find? (fun t => !(t.retention.contains "incomplete")) = some s ∧
        scanSnapshots spec snaps = s.rootID)
    ∧ (spec = "pin" →
      (∃ s ∈ snaps, s.retention.contains "incomplete" = false ∧ 0 < s.pins.length) →
      ∃ s, snaps.reverse.find? (fun t => !(t.retention.contains "incomplete")
            && decide (0 < t.pins.length)) = some s ∧
        scanSnapshots spec snaps = s.rootID) := by
  constructor
  · intro hs hex
    obtain ⟨s, hmem, hsel⟩ := hex
    have hsome : (snaps.reverse.find? (fun t => !(t.retention.contains "incomplete"))).isSome := by
      rw [List.find?_isSome]
      refine ⟨s, by simpa using hmem, ?_⟩
      show (!(s.retention.contains "incomplete")) = true
      rw [hsel]
      rfl
    obtain ⟨t, ht⟩ := Option.isSome_iff_exists.mp hsome
    refine ⟨t, ht, ?_⟩
    have := scanRev_filter spec hs snaps.reverse
      (fun u hu => (hnc u (by simpa using hu)).1)
    rw [scanSnapshots, this, ht]
    rfl
  · intro hs hex
    obtain ⟨s, hmem, hsel1, hsel2⟩ := hex
    have hsome : (snaps.reverse.find? (fun t => !(t.retention.contains "incomplete")
        && decide (0 < t.pins.length))).isSome := by
      rw [List.find?_isSome]
      refine ⟨s, by simpa using hmem, ?_⟩
      show (!(s.retention.contains "incomplete") && decide (0 < s.pins.length)) = true
      rw [hsel1]
      simp [hsel2]
    obtain ⟨t, ht⟩ := Option.isSome_iff_exists.mp hsome
    refine ⟨t, ht, ?_⟩
    have := scanRev_pin spec hs snaps.reverse (fun u hu => (hnc u (by simpa using hu)).1)
    rw [scanSnapshots, this, ht]
    rfl

/-- C2 witness: the worked example of the specification, with distinct
root identifiers: specifier "latest" picks the last complete snapshot. -/
theorem snapshot_latest_pin_selection_witness :
    scanSnapshots "latest"
      [mkSnap "s1" "r1" [] [], mkSnap "s2" "r2" ["incomplete"] [], mkSnap "s3" "r3" [] ["p1"]]
      = "r3" := by
  obtain ⟨t, ht, he⟩ := (snapshot_latest_pin_selection "latest"
      [mkSnap "s1" "r1" [] [], mkSnap "s2" "r2" ["incomplete"] [], mkSnap "s3" "r3" [] ["p1"]]
      (by decide)).1 (Or.inr rfl) ⟨mkSnap "s1" "r1" [] [], by simp, by decide⟩
  have hconc : ([mkSnap "s1" "r1" [] [], mkSnap "s2" "r2" ["incomplete"] [],
      mkSnap "s3" "r3" [] ["p1"]].reverse.find?
        (fun t => !(t.retention.contains "incomplete"))) = some (mkSnap "s3" "r3" [] ["p1"]) := by
    decide
  rw [hconc] at ht
  rw [he, ← Option.some.inj ht]
  rfl

/-! ### Claim theorems: resolver temporal behavior -/


/-- C6: once a resolution succeeded (root identifier non-empty), every
later call on a reachable state returns the same identifier, issues no
remote snapshot-list attempt, and leaves the state unchanged. -/
theorem resolveRoot_stable_after_success (spec : String) (s : ResolverState)
    (now : Nat) (remote : Except Unit (List Snapshot))
    (hreach : Reachable spec s) (h : s.rootId ≠ "") :
    resolveRoot spec s now remote = (.ok s.rootId, s, 0) := by
  obtain ⟨-, h2⟩ := reachable_inv spec s hreach
  obtain ⟨honce, hreset⟩ := h2 h
  obtain ⟨rid, once, reset⟩ := s
  simp only at honce hreset h
  subst honce
  subst hreset
  simp [resolveRoot, applyReset, h]

/-- C6 witness: the state reached by one successful resolution call
answers a later call with the same root identifier and zero attempts. -/
theorem resolveRoot_stable_after_success_witness :
    resolveRoot "latest" ⟨"rx", true, none⟩ 5 (.error ())
      = (.ok "rx", ⟨"rx", true, none⟩, 0) := by
  have hreach : Reachable "latest" (⟨"rx", true, none⟩ : ResolverState) := by
    have h : Reachable "latest" (resolveRoot "latest" ⟨"", false, none⟩ 0 (.ok [snapEx])).2.1 :=
      Reachable.step ⟨"", false, none⟩ 0 (.ok [snapEx]) Reachable.init
    exact (show (resolveRoot "latest" ⟨"", false, none⟩ 0 (.ok [snapEx])).2.1
      = ⟨"rx", true, none⟩ from rfl) ▸ h
  exact resolveRoot_stable_after_success "latest" _ 5 (.error ()) hreach (by decide)

/-- C5: when the one-shot attempt runs with an open gate and the remote
snapshot-list call itself fails, the resulting state has a consumed gate
and NO scheduled reset, and from that state every subsequent call (at
any time, with any remote outcome) returns the not-found error with zero
remote attempts and an unchanged state. -/
theorem resolveRoot_error_latches (spec : String) (s : ResolverState) (now : Nat)
    (hA : applyReset s now = ⟨"", false, none⟩) :
    resolveRoot spec s now (.error ()) = (.error .notFound, ⟨"", true, none⟩, 1)
    ∧ ∀ now2 remote2, resolveRoot spec ⟨"", true, none⟩ now2 remote2
        = (.error .notFound, ⟨"", true, none⟩, 0) := by
  constructor
  · simp [resolveRoot, hA]
  · intro now2 remote2
    simp [resolveRoot, applyReset]

/-- C5 witness: concrete failing trace from the fresh handle, followed by
a much later call that still does not retry. -/
theorem resolveRoot_error_latches_witness :
    resolveRoot "latest" ⟨"", false, none⟩ 0 (.error ())
      = (.error .notFound, ⟨"", true, none⟩, 1)
    ∧ resolveRoot "latest" ⟨"", true, none⟩ 100 (.ok [snapEx])
      = (.error .notFound, ⟨"", true, none⟩, 0) :=
  ⟨(resolveRoot_error_latches "latest" ⟨"", false, none⟩ 0 rfl).1,
   (resolveRoot_error_latches "latest" ⟨"", false, none⟩ 0 rfl).2 100 (.ok [snapEx])⟩

/-- C4 (counterexample): after a resolution failure caused by a failing
remote call (first conjunct: the gated attempt completes with the root
identifier still empty), a call issued at time 100, far beyond the
3-second cooldown, performs ZERO new remote snapshot-list attempts and
returns not-found — the claim demands exactly one new attempt after any
resolution failure. -/
theorem resolveRoot_failure_not_always_rearmed :
    (resolveRoot "latest" ⟨"", false, none⟩ 0 (.error ())).2.1 = ⟨"", true, none⟩
    ∧ resolveRoot "latest" ⟨"", true, none⟩ 100 (.ok [snapEx])
        = (.error .notFound, ⟨"", true, none⟩, 0) :=
  ⟨rfl, rfl⟩

/-- C4 (amended): after a resolution failure in which the remote
snapshot-list call succeeded but the scan selected no snapshot, a
subsequent call issued before the 3-second cooldown elapses returns the
not-found error without re-attempting the remote call, and a call issued
at or after the cooldown performs exactly one new remote snapshot-list
attempt.  (A failure of the remote call itself never rearms the gate.) -/
theorem resolveRoot_scan_failure_cooldown (spec : String) (s : ResolverState)
    (now : Nat) (snaps : List Snapshot)
    (hA : applyReset s now = ⟨"", false, none⟩)
    (hscan : scanSnapshots spec snaps = "") :
    resolveRoot spec s now (.ok snaps)
      = (.error .notFound, ⟨"", true, some (now + 3)⟩, 1)
    ∧ (∀ now2 remote2, now2 < now + 3 →
        resolveRoot spec ⟨"", true, some (now + 3)⟩ now2 remote2
          = (.error .notFound, ⟨"", true, some (now + 3)⟩, 0))
    ∧ (∀ now2 remote2, now + 3 ≤ now2 →
        (resolveRoot spec ⟨"", true, some (now + 3)⟩ now2 remote2).2.2 = 1) := by
  refine ⟨?_, ?_, ?_⟩
  · simp [resolveRoot, hA, hscan]
  · intro now2 remote2 hlt
    have hnot : ¬ (now + 3 ≤ now2) := by omega
    simp [resolveRoot, applyReset, hnot]
  · intro now2 remote2 hle
    cases remote2 with
    | error e => simp [resolveRoot, applyReset, hle]
    | ok sn2 =>
      by_cases h : scanSnapshots spec sn2 = "" <;>
        simp [resolveRoot, applyReset, hle, h]

/-- C4 witness: concrete scan failure (only an incomplete snapshot) at
time 0; a call at time 2 does not retry, a call at time 3 performs one
new attempt. -/
theorem resolveRoot_scan_failure_cooldown_witness :
    resolveRoot "latest" ⟨"", false, none⟩ 0 (.ok [mkSnap "s1" "r1" ["incomplete"] []])
      = (.error .notFound, ⟨"", true, some 3⟩, 1)
    ∧ resolveRoot "latest" ⟨"", true, some 3⟩ 2 (.ok [snapEx])
      = (.error .notFound, ⟨"", true, some 3⟩, 0)
    ∧ (resolveRoot "latest" ⟨"", true, some 3⟩ 3 (.ok [snapEx])).2.2 = 1 :=
  ⟨(resolveRoot_scan_failure_cooldown "latest" ⟨"", false, none⟩ 0 _ rfl (by decide)).1,
   (resolveRoot_scan_failure_cooldown "latest" ⟨"", false, none⟩ 0
      [mkSnap "s1" "r1" ["incomplete"] []] rfl (by decide)).2.1 2 (.ok [snapEx]) (by decide),
   (resolveRoot_scan_failure_cooldown "latest" ⟨"", false, none⟩ 0
      [mkSnap "s1" "r1" ["incomplete"] []] rfl (by decide)).2.2 3 (.ok [snapEx]) (by decide)⟩

/-! ### Claim theorem: retry policy -/

/-- C8: the retry decision never retries when the context is cancelled
or past its deadline and then propagates the context error; otherwise it
retries exactly when the error is classified transient, or the response
is absent, or the status code is at least 500, propagating the original
error. -/
theorem shouldRetry_characterization (c : Option Err) (transientOf : Option Err → Bool)
    (resp : Option Nat) (e : Option Err) :
    ((shouldRetry c transientOf resp e).1 = true ↔
      (c = none ∧ (transientOf e = true ∨ resp = none ∨ 500 ≤ resp.getD 0)))
    ∧ (shouldRetry c transientOf resp e).2
        = (match c with | some ce => some ce | none => e) := by
  cases c with
  | some ce => simp [shouldRetry]
  | none =>
    cases resp with
    | none => simp [shouldRetry]
    | some code => simp [shouldRetry]

/-! ### Evaluation lemmas for the list and lookup machinery -/

theorem mkEntry_name (remote : String) (e : Entry) :
    (mkEntry remote e).name = e.name := by
  simp only [mkEntry]
  split <;> rfl

theorem mkEntries_find? (remote nm : String) (items : List Entry) :
    (mkEntries remote items).find? (fun it => it.name == nm)
      = (items.find? (fun e => e.name == nm)).map (mkEntry remote) := by
  induction items with
  | nil => rfl
  | cons e rest ih =>
    simp only [mkEntries, List.map_cons]
    by_cases h : e.name = nm
    · rw [List.find?_cons_of_pos (p := fun it : DirEntry => it.name == nm) _
          (by show ((mkEntry remote e).name == nm) = true
              rw [mkEntry_name]; exact beq_iff_eq.mpr h),
        List.find?_cons_of_pos (p := fun x : Entry => x.name == nm) _
          (by show (e.name == nm) = true; exact beq_iff_eq.mpr h)]
      rfl
    · rw [List.find?_cons_of_neg (p := fun it : DirEntry => it.name == nm) _
          (by show ¬ ((mkEntry remote e).name == nm) = true
              rw [mkEntry_name]; simp only [beq_iff_eq]; exact h),
        List.find?_cons_of_neg (p := fun x : Entry => x.name == nm) _
          (by show ¬ (e.name == nm) = true; simp only [beq_iff_eq]; exact h)]
      exact ih

theorem listF_root_cached (w : World) (spec : String) (fuel : Nat) (st : FsState)
    (q : String) (es : List DirEntry)
    (hq : cleanPath q = "") (h : st.rootEntries = some es) :
    listF w spec (fuel + 1) st q = (.ok es, st, 0) := by
  simp [listF, hq, h]

theorem listF_root_fetch (w : World) (spec : String) (fuel : Nat) (st : FsState)
    (q rid : String) (rs : ResolverState) (k : Nat) (items : List Entry)
    (hq : cleanPath q = "") (h : st.rootEntries = none)
    (hres : resolveRoot spec st.resolver w.now w.snapshots = (.ok rid, rs, k))
    (hobj : w.objects rid = .dir items) :
    listF w spec (fuel + 1) st q
      = (.ok (mkEntries "" items),
         { st with resolver := rs, rootEntries := some (mkEntries "" items) }, 1) := by
  simp [listF, hq, h, hres, listObject, hobj]

theorem newObjectF_found (w : World) (spec : String) (fuel : Nat) (st st1 : FsState)
    (q : String) (es : List DirEntry) (n : Nat) (it : DirEntry)
    (hlist : listF w spec fuel st (goSplitPath (cleanPath q)).1 = (.ok es, st1, n))
    (hfile : (goSplitPath (cleanPath q)).2 ≠ "")
    (hfind : es.find? (fun x => x.name == (goSplitPath (cleanPath q)).2) = some it) :
    newObjectF w spec (fuel + 1) st q = (.ok it, st1, n) := by
  simp [newObjectF, hlist, hfile, hfind]

theorem newObjectF_missing (w : World) (spec : String) (fuel : Nat) (st st1 : FsState)
    (q : String) (es : List DirEntry) (n : Nat)
    (hlist : listF w spec fuel st (goSplitPath (cleanPath q)).1 = (.ok es, st1, n))
    (hfile : (goSplitPath (cleanPath q)).2 ≠ "")
    (hfind : es.find? (fun x => x.name == (goSplitPath (cleanPath q)).2) = none) :
    newObjectF w spec (fuel + 1) st q = (.error .objectNotFound, st1, n) := by
  simp [newObjectF, hlist, hfile, hfind]

theorem newObjectF_propagate (w : World) (spec : String) (fuel : Nat) (st st1 : FsState)
    (q : String) (e : Err) (n : Nat)
    (hlist : listF w spec fuel st (goSplitPath (cleanPath q)).1 = (.error e, st1, n)) :
    newObjectF w spec (fuel + 1) st q = (.error e, st1, n) := by
  simp [newObjectF, hlist]

theorem listF_sub_cached (w : World) (spec : String) (fuel : Nat) (st st1 : FsState)
    (q p : String) (info : ObjectInfo) (es : List DirEntry) (n : Nat)
    (hq : cleanPath q = p) (hp : p ≠ "")
    (hobj : newObjectF w spec fuel st p = (.ok (.directory info), st1, n))
    (hcache : lookupAssoc st1.dirCache p = some es) :
    listF w spec (fuel + 1) st q = (.ok es, st1, n) := by
  simp [listF, hq, hp, hobj, hcache]

theorem listF_sub_fetch (w : World) (spec : String) (fuel : Nat) (st st1 : FsState)
    (q p : String) (info : ObjectInfo) (items : List Entry) (n : Nat)
    (hq : cleanPath q = p) (hp : p ≠ "")
    (hobj : newObjectF w spec fuel st p = (.ok (.directory info), st1, n))
    (hcache : lookupAssoc st1.dirCache p = none)
    (hitems : w.objects info.id = .dir items) :
    listF w spec (fuel + 1) st q
      = (.ok (mkEntries p items),
         { st1 with dirCache := insertAssoc st1.dirCache p (mkEntries p items) }, n + 1) := by
  simp [listF, hq, hp, hobj, hcache, listObject, hitems]

theorem listF_sub_dirNotFound (w : World) (spec : String) (fuel : Nat) (st st1 : FsState)
    (q p : String) (n : Nat)
    (hq : cleanPath q = p) (hp : p ≠ "")
    (hobj : newObjectF w spec fuel st p = (.error .objectNotFound, st1, n)) :
    listF w spec (fuel + 1) st q = (.error .dirNotFound, st1, n) := by
  simp [listF, hq, hp, hobj]

theorem listF_sub_propagate (w : World) (spec : String) (fuel : Nat) (st st1 : FsState)
    (q p : String) (e : Err) (n : Nat)
    (hq : cleanPath q = p) (hp : p ≠ "") (hne : e ≠ .objectNotFound)
    (hobj : newObjectF w spec fuel st p = (.error e, st1, n)) :
    listF w spec (fuel + 1) st q = (.error e, st1, n) := by
  simp [listF, hq, hp, hobj, hne]

/-! ### Claim theorems: mutations -/

/-- C3 (counterexample): SetModTime returns the cannot-set-modification-
time error, which is a different error from permission denied, so not
every mutation entry point returns permission denied. -/
theorem setModTime_not_permission_denied :
    (ObjectSetModTime ⟨⟨"", false, none⟩, none, []⟩ 0).1 = .error .cantSetModTime
    ∧ Err.cantSetModTime ≠ Err.permissionDenied :=
  ⟨rfl, by decide⟩

/-- C3 (amended): Put, Mkdir, Rmdir, Update and Remove deterministically
return the permission-denied error for every input, with no remote call
and no state change; SetModTime likewise issues no remote call and
changes no state, but deterministically returns the
cannot-set-modification-time error instead. -/
theorem mutations_read_only (st : FsState) (d1 d2 : String) (u : Nat) :
    FsPut st = (.error .permissionDenied, st, 0)
    ∧ FsMkdir st d1 = (.error .permissionDenied, st, 0)
    ∧ FsRmdir st d2 = (.error .permissionDenied, st, 0)
    ∧ ObjectUpdate st = (.error .permissionDenied, st, 0)
    ∧ ObjectRemove st = (.error .permissionDenied, st, 0)
    ∧ ObjectSetModTime st u = (.error .cantSetModTime, st, 0) :=
  ⟨rfl, rfl, rfl, rfl, rfl, rfl⟩

theorem listF_chain_cached (w : World) (spec : String) (st : FsState)
    (k : Nat) (q : String) (es : List DirEntry)
    (h : CachedChain st k q es) (m : Nat) :
    listF w spec (2 * k + 1 + m) st q = (.ok es, st, 0) := by
  induction h generalizing m with
  | root q es hq hroot =>
    have harith : 2 * 0 + 1 + m = m + 1 := by ring
    rw [harith]
    exact listF_root_cached w spec m st q es hq hroot
  | sub k q p pes es info hq hp hcanon hchain hfile hfind hcache ih =>
    have harith : 2 * (k + 1) + 1 + m = (2 * k + 1 + (m + 1)) + 1 := by ring
    rw [harith]
    have hobj : newObjectF w spec (2 * k + 1 + (m + 1)) st p
        = (.ok (.directory info), st, 0) := by
      have hlist : listF w spec (2 * k + 1 + m) st (goSplitPath (cleanPath p)).1
          = (.ok pes, st, 0) := by
        rw [hcanon]
        exact ih m
      have harith2 : 2 * k + 1 + (m + 1) = (2 * k + 1 + m) + 1 := by ring
      rw [harith2]
      exact newObjectF_found w spec (2 * k + 1 + m) st st p pes 0 (.directory info)
        hlist (by rw [hcanon]; exact hfile) (by rw [hcanon]; exact hfind)
    exact listF_sub_cached w spec (2 * k + 1 + (m + 1)) st st q p info es 0 hq hp hobj hcache

/-! ### Claim theorems: listing cache and path walk -/

/-- C7: a listing is fetched from the remote at most once per path.
First conjunct: a root list call with the root cache present returns the
cached sequence with zero remote object fetches and an unchanged state.
Second conjunct: the first root list call (empty cache, resolver
succeeding, root object a directory) issues exactly one remote object
fetch and caches the converted listing.  Third conjunct: a list call on
any path whose ancestor chain of listings is fully cached returns the
cached sequence with zero remote object fetches and an unchanged state,
for any sufficient fuel. -/
theorem list_fetches_at_most_once (w : World) (spec : String) (fuel : Nat) (st : FsState) :
    (∀ es, st.rootEntries = some es →
      listF w spec (fuel + 1) st "" = (.ok es, st, 0))
    ∧ (∀ rid rs k items, st.rootEntries = none →
        resolveRoot spec st.resolver w.now w.snapshots = (.ok rid, rs, k) →
        w.objects rid = .dir items →
        listF w spec (fuel + 1) st ""
          = (.ok (mkEntries "" items),
             { st with resolver := rs, rootEntries := some (mkEntries "" items) }, 1))
    ∧ (∀ k q es m, CachedChain st k q es →
        listF w spec (2 * k + 1 + m) st q = (.ok es, st, 0)) := by
  refine ⟨?_, ?_, ?_⟩
  · intro es h
    exact listF_root_cached w spec fuel st "" es rfl h
  · intro rid rs k items h hres hobj
    exact listF_root_fetch w spec fuel st "" rid rs k items rfl h hres hobj
  · intro k q es m h
    exact listF_chain_cached w spec st k q es h m

/-- C7 witness: with the concrete world `worldEx`, a cached root listing
is returned without fetching, the first root fetch issues exactly one
object fetch and caches it, and the cached listing of "a" is returned
without fetching. -/
theorem list_fetches_at_most_once_witness :
    listF worldEx "latest" 1 stCached "" = (.ok [nodeA], stCached, 0)
    ∧ listF worldEx "latest" 1 stFresh ""
        = (.ok (mkEntries "" [entryA]),
           ⟨⟨"rt", true, none⟩, some (mkEntries "" [entryA]), []⟩, 1)
    ∧ listF worldEx "latest" 3 stCached "a" = (.ok [], stCached, 0) := by
  have hchain : CachedChain stCached 1 "a" [] := by
    refine CachedChain.sub 0 "a" "a" [nodeA] [] ⟨"ida", "a", "a", 0, 0⟩
      rfl (by decide) rfl ?_ (by decide) rfl rfl
    exact CachedChain.root (goSplitPath "a").1 [nodeA] rfl rfl
  refine ⟨?_, ?_, ?_⟩
  · have h := (list_fetches_at_most_once worldEx "latest" 0 stCached).1 [nodeA] rfl
    simpa using h
  · have h := (list_fetches_at_most_once worldEx "latest" 0 stFresh).2.1
      "rt" ⟨"rt", true, none⟩ 0 [entryA] rfl rfl rfl
    simpa using h
  · have h := (list_fetches_at_most_once worldEx "latest" 0 stCached).2.2 1 "a" [] 0 hchain
    simpa using h

/-- C10: when the first segment of the requested directory path does not
appear in the root listing, the list operation reports the
directory-not-found error (the object-not-found outcome of the internal
path walk is mapped to directory-not-found). -/
theorem list_missing_dir_not_found (w : World) (spec rid : String) (ra : List Entry)
    (hrid : rid ≠ "") (hroot : w.objects rid = .dir ra)
    (hmiss : ∀ e ∈ ra, e.name ≠ "missing") :
    ∃ st1 n, FsList w spec "" 10 ⟨⟨rid, true, none⟩, none, []⟩ "missing/dir"
      = (.error .dirNotFound, st1, n) := by
  have hres : resolveRoot spec (⟨rid, true, none⟩ : ResolverState) w.now w.snapshots
      = (.ok rid, ⟨rid, true, none⟩, 0) := by
    simp [resolveRoot, applyReset, hrid]
  have h6 : listF w spec 6 (⟨⟨rid, true, none⟩, none, []⟩ : FsState) ""
      = (.ok (mkEntries "" ra), ⟨⟨rid, true, none⟩, some (mkEntries "" ra), []⟩, 1) :=
    listF_root_fetch w spec 5 ⟨⟨rid, true, none⟩, none, []⟩ "" rid
      ⟨rid, true, none⟩ 0 ra rfl rfl hres hroot
  have hfind : (mkEntries "" ra).find? (fun x => x.name == "missing") = none := by
    rw [List.find?_eq_none]
    intro it hit
    simp only [mkEntries, List.mem_map] at hit
    obtain ⟨e, he, rfl⟩ := hit
    show ¬ ((mkEntry "" e).name == "missing") = true
    rw [mkEntry_name]
    simp only [beq_iff_eq]
    exact hmiss e he
  have h7 : newObjectF w spec 7 (⟨⟨rid, true, none⟩, none, []⟩ : FsState) "missing"
      = (.error .objectNotFound, ⟨⟨rid, true, none⟩, some (mkEntries "" ra), []⟩, 1) :=
    newObjectF_missing w spec 6 ⟨⟨rid, true, none⟩, none, []⟩
      ⟨⟨rid, true, none⟩, some (mkEntries "" ra), []⟩ "missing" (mkEntries "" ra) 1
      h6 (by decide) hfind
  have h8 : listF w spec 8 (⟨⟨rid, true, none⟩, none, []⟩ : FsState) "missing/"
      = (.error .dirNotFound, ⟨⟨rid, true, none⟩, some (mkEntries "" ra), []⟩, 1) :=
    listF_sub_dirNotFound w spec 7 ⟨⟨rid, true, none⟩, none, []⟩
      ⟨⟨rid, true, none⟩, some (mkEntries "" ra), []⟩ "missing/" "missing" 1
      rfl (by decide) h7
  have h9 : newObjectF w spec 9 (⟨⟨rid, true, none⟩, none, []⟩ : FsState) "missing/dir"
      = (.error .dirNotFound, ⟨⟨rid, true, none⟩, some (mkEntries "" ra), []⟩, 1) :=
    newObjectF_propagate w spec 8 ⟨⟨rid, true, none⟩, none, []⟩
      ⟨⟨rid, true, none⟩, some (mkEntries "" ra), []⟩ "missing/dir" .dirNotFound 1 h8
  have h10 : listF w spec 10 (⟨⟨rid, true, none⟩, none, []⟩ : FsState) "missing/dir"
      = (.error .dirNotFound, ⟨⟨rid, true, none⟩, some (mkEntries "" ra), []⟩, 1) :=
    listF_sub_propagate w spec 9 ⟨⟨rid, true, none⟩, none, []⟩
      ⟨⟨rid, true, none⟩, some (mkEntries "" ra), []⟩ "missing/dir" "missing/dir"
      .dirNotFound 1 rfl (by decide) (by decide) h9
  exact ⟨⟨⟨rid, true, none⟩, some (mkEntries "" ra), []⟩, 1, h10⟩

/-- C9: in any world where "a" is a directory of the root, "a/b" a
directory of "a", and "c" a file entry of "a/b", looking up "a/b/c"
returns a file entry whose full path is "a/b/c" (with the item's object
identifier, size and modification time), while looking up "a/b" on the
same tree reports the is-a-directory error instead of returning an
object. -/
theorem lookup_file_and_directory (w : World) (spec rid : String)
    (ra rb rc : List Entry) (ea eb ec : Entry)
    (hrid : rid ≠ "")
    (hroot : w.objects rid = .dir ra)
    (hfa : ra.find? (fun e => e.name == "a") = some ea) (hta : ea.type = "d")
    (hb : w.objects ea.obj = .dir rb)
    (hfb : rb.find? (fun e => e.name == "b") = some eb) (htb : eb.type = "d")
    (hc : w.objects eb.obj = .dir rc)
    (hfc : rc.find? (fun e => e.name == "c") = some ec) (htc : ec.type ≠ "d") :
    (∃ st1 n, FsNewObject w spec "" 10 ⟨⟨rid, true, none⟩, none, []⟩ "a/b/c"
        = (.ok ⟨ec.obj, "c", "a/b/c", ec.size, ec.mtime⟩, st1, n))
    ∧ (∃ st2 n2, FsNewObject w spec "" 10 ⟨⟨rid, true, none⟩, none, []⟩ "a/b"
        = (.error .isDir, st2, n2)) := by
  have hres : resolveRoot spec (⟨rid, true, none⟩ : ResolverState) w.now w.snapshots
      = (.ok rid, ⟨rid, true, none⟩, 0) := by
    simp [resolveRoot, applyReset, hrid]
  have hnamea : ea.name = "a" := by
    have h := List.find?_some hfa
    simpa [beq_iff_eq] using h
  have hnameb : eb.name = "b" := by
    have h := List.find?_some hfb
    simpa [beq_iff_eq] using h
  have hnamec : ec.name = "c" := by
    have h := List.find?_some hfc
    simpa [beq_iff_eq] using h
  have hmka : mkEntry "" ea = .directory ⟨ea.obj, "a", "a", ea.summ.size, ea.mtime⟩ := by
    simp [mkEntry, hta, hnamea, show goJoin "" "a" = "a" from rfl]
  have hmkb : mkEntry "a" eb = .directory ⟨eb.obj, "b", "a/b", eb.summ.size, eb.mtime⟩ := by
    simp [mkEntry, htb, hnameb, show goJoin "a" "b" = "a/b" from rfl]
  have hmkc : mkEntry "a/b" ec = .object ⟨ec.obj, "c", "a/b/c", ec.size, ec.mtime⟩ := by
    simp [mkEntry, htc, hnamec, show goJoin "a/b" "c" = "a/b/c" from rfl]
  have hfinda : (mkEntries "" ra).find? (fun x => x.name == "a")
      = some (.directory ⟨ea.obj, "a", "a", ea.summ.size, ea.mtime⟩) := by
    rw [mkEntries_find?, hfa]
    show some (mkEntry "" ea) = _
    rw [hmka]
  have hfindb : (mkEntries "a" rb).find? (fun x => x.name == "b")
      = some (.directory ⟨eb.obj, "b", "a/b", eb.summ.size, eb.mtime⟩) := by
    rw [mkEntries_find?, hfb]
    show some (mkEntry "a" eb) = _
    rw [hmkb]
  have hfindc : (mkEntries "a/b" rc).find? (fun x => x.name == "c")
      = some (.object ⟨ec.obj, "c", "a/b/c", ec.size, ec.mtime⟩) := by
    rw [mkEntries_find?, hfc]
    show some (mkEntry "a/b" ec) = _
    rw [hmkc]
  have hroot1 : ∀ f, listF w spec (f + 1) (⟨⟨rid, true, none⟩, none, []⟩ : FsState) ""
      = (.ok (mkEntries "" ra), ⟨⟨rid, true, none⟩, some (mkEntries "" ra), []⟩, 1) :=
    fun f => listF_root_fetch w spec f ⟨⟨rid, true, none⟩, none, []⟩ "" rid
      ⟨rid, true, none⟩ 0 ra rfl rfl hres hroot
  have hdira : ∀ f, newObjectF w spec (f + 2) (⟨⟨rid, true, none⟩, none, []⟩ : FsState) "a"
      = (.ok (.directory ⟨ea.obj, "a", "a", ea.summ.size, ea.mtime⟩),
         ⟨⟨rid, true, none⟩, some (mkEntries "" ra), []⟩, 1) :=
    fun f => newObjectF_found w spec (f + 1) ⟨⟨rid, true, none⟩, none, []⟩
      ⟨⟨rid, true, none⟩, some (mkEntries "" ra), []⟩ "a" (mkEntries "" ra) 1
      (.directory ⟨ea.obj, "a", "a", ea.summ.size, ea.mtime⟩)
      (hroot1 f) (by decide) hfinda
  have hlista : ∀ f, listF w spec (f + 3) (⟨⟨rid, true, none⟩, none, []⟩ : FsState) "a/"
      = (.ok (mkEntries "a" rb),
         ⟨⟨rid, true, none⟩, some (mkEntries "" ra), [("a", mkEntries "a" rb)]⟩, 2) :=
    fun f => listF_sub_fetch w spec (f + 2) ⟨⟨rid, true, none⟩, none, []⟩
      ⟨⟨rid, true, none⟩, some (mkEntries "" ra), []⟩ "a/" "a"
      ⟨ea.obj, "a", "a", ea.summ.size, ea.mtime⟩ rb 1 rfl (by decide)
      (hdira f) rfl hb
  have hdirb : ∀ f, newObjectF w spec (f + 4) (⟨⟨rid, true, none⟩, none, []⟩ : FsState) "a/b"
      = (.ok (.directory ⟨eb.obj, "b", "a/b", eb.summ.size, eb.mtime⟩),
         ⟨⟨rid, true, none⟩, some (mkEntries "" ra), [("a", mkEntries "a" rb)]⟩, 2) :=
    fun f => newObjectF_found w spec (f + 3) ⟨⟨rid, true, none⟩, none, []⟩
      ⟨⟨rid, true, none⟩, some (mkEntries "" ra), [("a", mkEntries "a" rb)]⟩ "a/b"
      (mkEntries "a" rb) 2 (.directory ⟨eb.obj, "b", "a/b", eb.summ.size, eb.mtime⟩)
      (hlista f) (by decide) hfindb
  have hlistb : ∀ f, listF w spec (f + 5) (⟨⟨rid, true, none⟩, none, []⟩ : FsState) "a/b/"
      = (.ok (mkEntries "a/b" rc),
         ⟨⟨rid, true, none⟩, some (mkEntries "" ra),
          [("a/b", mkEntries "a/b" rc), ("a", mkEntries "a" rb)]⟩, 3) :=
    fun f => listF_sub_fetch w spec (f + 4) ⟨⟨rid, true, none⟩, none, []⟩
      ⟨⟨rid, true, none⟩, some (mkEntries "" ra), [("a", mkEntries "a" rb)]⟩ "a/b/" "a/b"
      ⟨eb.obj, "b", "a/b", eb.summ.size, eb.mtime⟩ rc 2 rfl (by decide)
      (hdirb f) rfl hc
  have hfilec : ∀ f, newObjectF w spec (f + 6) (⟨⟨rid, true, none⟩, none, []⟩ : FsState) "a/b/c"
      = (.ok (.object ⟨ec.obj, "c", "a/b/c", ec.size, ec.mtime⟩),
         ⟨⟨rid, true, none⟩, some (mkEntries "" ra),
          [("a/b", mkEntries "a/b" rc), ("a", mkEntries "a" rb)]⟩, 3) :=
    fun f => newObjectF_found w spec (f + 5) ⟨⟨rid, true, none⟩, none, []⟩
      ⟨⟨rid, true, none⟩, some (mkEntries "" ra),
       [("a/b", mkEntries "a/b" rc), ("a", mkEntries "a" rb)]⟩ "a/b/c"
      (mkEntries "a/b" rc) 3 (.object ⟨ec.obj, "c", "a/b/c", ec.size, ec.mtime⟩)
      (hlistb f) (by decide) hfindc
  constructor
  · refine ⟨⟨⟨rid, true, none⟩, some (mkEntries "" ra),
      [("a/b", mkEntries "a/b" rc), ("a", mkEntries "a" rb)]⟩, 3, ?_⟩
    show FsNewObject w spec "" 10 ⟨⟨rid, true, none⟩, none, []⟩ "a/b/c" = _
    unfold FsNewObject
    rw [show goJoin "" "a/b/c" = "a/b/c" from rfl, hfilec 4]
  · refine ⟨⟨⟨rid, true, none⟩, some (mkEntries "" ra), [("a", mkEntries "a" rb)]⟩, 2, ?_⟩
    show FsNewObject w spec "" 10 ⟨⟨rid, true, none⟩, none, []⟩ "a/b" = _
    unfold FsNewObject
    rw [show goJoin "" "a/b" = "a/b" from rfl, hdirb 6]

/-- C9 witness: in the concrete world `worldABC`, looking up "a/b/c"
yields the file entry with path "a/b/c", and looking up "a/b" reports
is-a-directory. -/
theorem lookup_file_and_directory_witness :
    (∃ st1 n, FsNewObject worldABC "latest" "" 10 ⟨⟨"rt", true, none⟩, none, []⟩ "a/b/c"
        = (.ok ⟨"ic", "c", "a/b/c", 42, 9⟩, st1, n))
    ∧ (∃ st2 n2, FsNewObject worldABC "latest" "" 10 ⟨⟨"rt", true, none⟩, none, []⟩ "a/b"
        = (.error .isDir, st2, n2)) :=
  lookup_file_and_directory worldABC "latest" "rt"
    [⟨"a", "d", "", 0, 0, "ia", zsum⟩] [⟨"b", "d", "", 0, 0, "ib", zsum⟩]
    [⟨"c", "f", "", 42, 9, "ic", zsum⟩]
    ⟨"a", "d", "", 0, 0, "ia", zsum⟩ ⟨"b", "d", "", 0, 0, "ib", zsum⟩
    ⟨"c", "f", "", 42, 9, "ic", zsum⟩
    (by decide) rfl rfl rfl rfl rfl rfl rfl rfl (by decide)

/-- C10 witness: in the concrete world `worldEx` (whose root listing
holds only "a"), listing "missing/dir" reports directory-not-found. -/
theorem list_missing_dir_not_found_witness :
    ∃ st1 n, FsList worldEx "latest" "" 10 ⟨⟨"rt", true, none⟩, none, []⟩ "missing/dir"
      = (.error .dirNotFound, st1, n) :=
  list_missing_dir_not_found worldEx "latest" "rt" [entryA] (by decide) rfl (by decide)

end Kopia
